import Mathlib

/-!
Verification development for the smart-home analytics engine
(`scripts/ollama_client.py`, `scripts/main.py`).

Python strings are embedded as `List Char`.  Each definition below embeds
the corresponding source function; definitions whose doc comment starts
with "Modelled from the spec:" embed design-level components that the
repository leaves unimplemented (the spec itself notes the merge/dedup
logic is present only as placeholders).
-/

set_option linter.all false

abbrev Str := List Char

/-- Whitespace characters stripped by Python `str.strip()` (ASCII set). -/
def isPyWs (c : Char) : Bool :=
  c == ' ' || c == '\t' || c == '\n' || c == '\r' || c == '\x0b' || c == '\x0c'

/-- Embedding of Python `s.strip()`: remove leading and trailing whitespace. -/
def pystrip (s : Str) : Str :=
  ((s.dropWhile isPyWs).reverse.dropWhile isPyWs).reverse

/-- Embedding of Python `s.startswith(p)` for string `p`. -/
def strHasPre : Str → Str → Bool
  | [], _ => true
  | _ :: _, [] => false
  | p :: ps, c :: cs => p == c && strHasPre ps cs

/-- Embedding of Python `s.split('\n')`. -/
def splitNl : Str → List Str
  | [] => [[]]
  | c :: rest =>
    let r := splitNl rest
    if c == '\n' then [] :: r
    else
      match r with
      | h :: t => (c :: h) :: t
      | [] => [[c]]

/-- Embedding of `OllamaClient.analyze_patterns` applied to the backend
response text: split into lines, strip each line, keep lines that are
non-empty and do not start with a comment mark, and cap at 10 insights
(`insights[:10]`).  The source's comprehension filters on the stripped
line, which is the same as mapping `strip` first and filtering after. -/
def analyze_patterns (response : Str) : List Str :=
  ((((splitNl response).map pystrip).filter
      (fun l => !l.isEmpty && !(strHasPre ['#'] l))).take 10)

/-- JSON values as decoded by Python `json.loads`.  Numeric literals
(including the `NaN` and `Infinity` extensions Python accepts) are kept as
their source tokens; no claim depends on float arithmetic. -/
inductive Json where
  | jnull
  | jbool (b : Bool)
  | jnum (tok : Str)
  | jstr (s : Str)
  | jarr (elems : List Json)
  | jobj (fields : List (Str × Json))

/-- JSON whitespace accepted between tokens by `json.loads`. -/
def jws (c : Char) : Bool :=
  c == ' ' || c == '\t' || c == '\n' || c == '\r'

/-- Value of a hexadecimal digit, as accepted in a `\u` escape. -/
def hexv (c : Char) : Option Nat :=
  if c.isDigit then some (c.toNat - 48)
  else if 'a' ≤ c && c ≤ 'f' then some (c.toNat - 87)
  else if 'A' ≤ c && c ≤ 'F' then some (c.toNat - 55)
  else none

/-- Single-character string escapes accepted by strict `json.loads`
(backspace, form feed, newline, carriage return, tab, and the three
self-escapes). -/
def escc : Char → Option Char
  | 'b' => some '\x08'
  | 'f' => some '\x0c'
  | 'n' => some '\n'
  | 'r' => some '\r'
  | 't' => some '\t'
  | '"' => some '"'
  | '\\' => some '\\'
  | '/' => some '/'
  | _ => none

/-- Body of a JSON string after the opening quote: strict mode rejects
raw control characters and unknown escapes; `\uXXXX` decodes to the code
point.  Fuel is at least the input length, so it never runs out. -/
def pstr : Nat → Str → Option (Str × Str)
  | 0, _ => none
  | _ + 1, [] => none
  | f + 1, c :: rest =>
    if c == '"' then some ([], rest)
    else if c == '\\' then
      match rest with
      | 'u' :: h1 :: h2 :: h3 :: h4 :: rest2 =>
        match hexv h1, hexv h2, hexv h3, hexv h4 with
        | some a, some b, some cc, some d =>
          (pstr f rest2).map (fun p => (Char.ofNat (((a * 16 + b) * 16 + cc) * 16 + d) :: p.1, p.2))
        | _, _, _, _ => none
      | e :: rest2 =>
        match escc e with
        | some ch => (pstr f rest2).map (fun p => (ch :: p.1, p.2))
        | none => none
      | [] => none
    else if c.toNat < 32 then none
    else (pstr f rest).map (fun p => (c :: p.1, p.2))

/-- Integer part of a JSON number: `0`, or a nonzero digit followed by
digits (leading zeros are not absorbed, exactly as in the JSON grammar). -/
def pint : Str → Option (Str × Str)
  | [] => none
  | c :: t =>
    if c == '0' then some (['0'], t)
    else if c.isDigit then some (c :: t.takeWhile Char.isDigit, t.dropWhile Char.isDigit)
    else none

/-- Optional fraction part `.digits`; consumed only when well-formed. -/
def pfrac : Str → Str × Str
  | [] => ([], [])
  | c :: t =>
    if c == '.' then
      match t.takeWhile Char.isDigit with
      | [] => ([], c :: t)
      | ds => (c :: ds, t.dropWhile Char.isDigit)
    else ([], c :: t)

/-- Optional exponent part `e[+-]digits`; consumed only when well-formed. -/
def pexp : Str → Str × Str
  | [] => ([], [])
  | c :: t =>
    if c == 'e' || c == 'E' then
      let sp : Str × Str :=
        match t with
        | s :: t2 => if s == '+' || s == '-' then ([s], t2) else ([], s :: t2)
        | [] => ([], [])
      match sp.2.takeWhile Char.isDigit with
      | [] => ([], c :: t)
      | ds => (c :: (sp.1 ++ ds), sp.2.dropWhile Char.isDigit)
    else ([], c :: t)

/-- A JSON number token: optional sign, integer part, optional fraction
and exponent.  Returns the token and the remaining input. -/
def pnum (cs : Str) : Option (Str × Str) :=
  let sc : Str × Str :=
    match cs with
    | '-' :: t => (['-'], t)
    | _ => ([], cs)
  match pint sc.2 with
  | none => none
  | some (ip, r1) =>
    let fp := pfrac r1
    let ep := pexp fp.2
    some (sc.1 ++ ip ++ fp.1 ++ ep.1, ep.2)

mutual

/-- One JSON value, in the grammar accepted by Python `json.loads`
(strict mode, with the `NaN`/`Infinity`/`-Infinity` extensions). -/
def pval : Nat → Str → Option (Json × Str)
  | 0, _ => none
  | f + 1, cs =>
    match cs.dropWhile jws with
    | [] => none
    | c :: rest =>
      if c == '{' then pobj f rest
      else if c == '[' then parr f rest
      else if c == '"' then (pstr (rest.length + 1) rest).map (fun p => (Json.jstr p.1, p.2))
      else if c == 't' then
        match rest with
        | 'r' :: 'u' :: 'e' :: r2 => some (Json.jbool true, r2)
        | _ => none
      else if c == 'f' then
        match rest with
        | 'a' :: 'l' :: 's' :: 'e' :: r2 => some (Json.jbool false, r2)
        | _ => none
      else if c == 'n' then
        match rest with
        | 'u' :: 'l' :: 'l' :: r2 => some (Json.jnull, r2)
        | _ => none
      else if c == 'N' then
        match rest with
        | 'a' :: 'N' :: r2 => some (Json.jnum "NaN".data, r2)
        | _ => none
      else if c == 'I' then
        match rest with
        | 'n' :: 'f' :: 'i' :: 'n' :: 'i' :: 't' :: 'y' :: r2 => some (Json.jnum "Infinity".data, r2)
        | _ => none
      else if c == '-' then
        match rest with
        | 'I' :: 'n' :: 'f' :: 'i' :: 'n' :: 'i' :: 't' :: 'y' :: r2 =>
          some (Json.jnum "-Infinity".data, r2)
        | _ => (pnum (c :: rest)).map (fun p => (Json.jnum p.1, p.2))
      else if c.isDigit then (pnum (c :: rest)).map (fun p => (Json.jnum p.1, p.2))
      else none

/-- Array elements, entered after the opening bracket. -/
def parr : Nat → Str → Option (Json × Str)
  | 0, _ => none
  | f + 1, cs =>
    match cs.dropWhile jws with
    | ']' :: rest => some (Json.jarr [], rest)
    | cs2 =>
      match pval f cs2 with
      | none => none
      | some (v, r1) => (parrRest f r1).map (fun p => (Json.jarr (v :: p.1), p.2))

/-- Array continuation after an element: a comma and another element, or
the closing bracket. -/
def parrRest : Nat → Str → Option (List Json × Str)
  | 0, _ => none
  | f + 1, cs =>
    match cs.dropWhile jws with
    | ']' :: rest => some ([], rest)
    | ',' :: rest =>
      match pval f rest with
      | none => none
      | some (v, r1) => (parrRest f r1).map (fun p => (v :: p.1, p.2))
    | _ => none

/-- Object members, entered after the opening brace. -/
def pobj : Nat → Str → Option (Json × Str)
  | 0, _ => none
  | f + 1, cs =>
    match cs.dropWhile jws with
    | '}' :: rest => some (Json.jobj [], rest)
    | '"' :: rest =>
      match pstr (rest.length + 1) rest with
      | none => none
      | some (k, r1) =>
        match r1.dropWhile jws with
        | ':' :: r2 =>
          match pval f r2 with
          | none => none
          | some (v, r3) => (pobjRest f r3).map (fun p => (Json.jobj ((k, v) :: p.1), p.2))
        | _ => none
    | _ => none

/-- Object continuation after a member: a comma and another member, or
the closing brace. -/
def pobjRest : Nat → Str → Option (List (Str × Json) × Str)
  | 0, _ => none
  | f + 1, cs =>
    match cs.dropWhile jws with
    | '}' :: rest => some ([], rest)
    | ',' :: rest =>
      match rest.dropWhile jws with
      | '"' :: r0 =>
        match pstr (r0.length + 1) r0 with
        | none => none
        | some (k, r1) =>
          match r1.dropWhile jws with
          | ':' :: r2 =>
            match pval f r2 with
            | none => none
            | some (v, r3) => (pobjRest f r3).map (fun p => ((k, v) :: p.1, p.2))
          | _ => none
      | _ => none
    | _ => none

end

/-- Embedding of Python `json.loads`: parse one value with generous fuel
and require that only whitespace remains (otherwise Python raises
`Extra data`).  `none` stands for a raised `json.JSONDecodeError`. -/
def jloads (cs : Str) : Option Json :=
  match pval (4 * cs.length + 4) cs with
  | some (v, rest) => if rest.dropWhile jws = [] then some v else none
  | none => none

/-- Opening fence marker checked first by the source (`"```json"`). -/
def fenceJ : Str := "```json".data

/-- Bare fence marker checked second by the source (`"```"`). -/
def fenceB : Str := "```".data

/-- Embedding of the response clean-up in
`OllamaClient.extract_entities_and_relationships` (lines 99-103):
`strip()`, then slice off `[7:-3]` after a `"```json"` marker or `[3:-3]`
after a bare `"```"` marker.  Python `r[a:-3]` is `drop a` followed by
keeping all but the last three characters. -/
def stripFences (response : Str) : Str :=
  let r := pystrip response
  if strHasPre fenceJ r then (r.drop 7).take ((r.drop 7).length - 3)
  else if strHasPre fenceB r then (r.drop 3).take ((r.drop 3).length - 3)
  else r

/-- The empty Extraction Result returned on decode failure. -/
def emptyExtraction : Json :=
  Json.jobj [("entities".data, Json.jarr []), ("relationships".data, Json.jarr [])]

/-- Embedding of `OllamaClient.extract_entities_and_relationships` from the
backend response onward: clean the response, `json.loads` it, and return
the decoded value as-is; a `json.JSONDecodeError` is caught and turned
into the empty Extraction Result. -/
def extract_entities_and_relationships (response : Str) : Json :=
  match jloads (stripFences response) with
  | some v => v
  | none => emptyExtraction

theorem strHasPre_self_append (p x : Str) : strHasPre p (p ++ x) = true := by
  induction p with
  | nil => rfl
  | cons c cs ih => simp [strHasPre, ih]

theorem strHasPre_append_both (p q x : Str) :
    strHasPre (p ++ q) (p ++ x) = strHasPre q x := by
  induction p with
  | nil => rfl
  | cons c cs ih => simp [strHasPre, ih]

theorem pystrip_wrap (p s : Str)
    (hp : (p ++ (s ++ fenceB)).dropWhile isPyWs = p ++ (s ++ fenceB)) :
    pystrip (p ++ s ++ fenceB) = p ++ s ++ fenceB := by
  unfold pystrip
  rw [List.append_assoc, hp, ← List.append_assoc, List.reverse_append]
  have hb : fenceB.reverse = fenceB := rfl
  rw [hb]
  have h2 : (fenceB ++ (p ++ s).reverse).dropWhile isPyWs
      = fenceB ++ (p ++ s).reverse := rfl
  rw [h2, List.reverse_append, List.reverse_reverse, hb]

theorem jloads_j_head (t : Str) : jloads ('j' :: t) = none := rfl

theorem stripFences_wrapJ (s : Str) :
    stripFences (fenceJ ++ s ++ fenceB) = s := by
  unfold stripFences
  rw [pystrip_wrap fenceJ s rfl]
  have hpre : strHasPre fenceJ (fenceJ ++ s ++ fenceB) = true := by
    rw [List.append_assoc]; exact strHasPre_self_append fenceJ (s ++ fenceB)
  simp only [hpre, if_true]
  have hdrop : (fenceJ ++ s ++ fenceB).drop 7 = s ++ fenceB := by
    rw [List.append_assoc, show (7 : Nat) = fenceJ.length from rfl, List.drop_left]
  rw [hdrop]
  have hlen : (s ++ fenceB).length - 3 = s.length := by
    simp [List.length_append, show fenceB.length = 3 from rfl]
  rw [hlen, show s.length = s.length from rfl]
  exact List.take_left s fenceB

theorem stripFences_wrapB (s : Str) (hj : strHasPre "json".data (s ++ fenceB) = false) :
    stripFences (fenceB ++ s ++ fenceB) = s := by
  unfold stripFences
  rw [pystrip_wrap fenceB s rfl]
  have hpreJ : strHasPre fenceJ (fenceB ++ s ++ fenceB) = false := by
    rw [List.append_assoc, show fenceJ = fenceB ++ "json".data from rfl,
      strHasPre_append_both]
    exact hj
  have hpreB : strHasPre fenceB (fenceB ++ s ++ fenceB) = true := by
    rw [List.append_assoc]; exact strHasPre_self_append fenceB (s ++ fenceB)
  simp only [hpreJ, hpreB, if_true, Bool.false_eq_true, if_false]
  have hdrop : (fenceB ++ s ++ fenceB).drop 3 = s ++ fenceB := by
    rw [List.append_assoc, show (3 : Nat) = fenceB.length from rfl, List.drop_left]
  rw [hdrop]
  have hlen : (s ++ fenceB).length - 3 = s.length := by
    simp [List.length_append, show fenceB.length = 3 from rfl]
  rw [hlen]
  exact List.take_left s fenceB

/-- C4: fence stripping round-trips.  For every string `s` that decodes as
JSON, wrapping it in a fenced code block (with either the `"```json"` or
the bare `"```"` opener and the `"```"` closer) and passing it through the
parser's stripping-and-decoding step yields exactly the same decoded
value as decoding `s` directly. -/
theorem fence_roundtrip (s : Str) (v : Json) (h : jloads s = some v) :
    jloads (stripFences (fenceJ ++ s ++ fenceB)) = some v ∧
    jloads (stripFences (fenceB ++ s ++ fenceB)) = some v := by
  have hs : strHasPre "json".data (s ++ fenceB) = false := by
    cases s with
    | nil =>
      have : jloads ([] : Str) = none := rfl
      rw [this] at h; cases h
    | cons c t =>
      by_cases hc : c = 'j'
      · subst hc
        rw [jloads_j_head t] at h; cases h
      · show strHasPre ('j' :: 's' :: 'o' :: 'n' :: []) (c :: (t ++ fenceB)) = false
        have : ('j' == c) = false := by
          exact beq_eq_false_iff_ne.mpr (fun hh => hc hh.symm)
        simp [strHasPre, this]
  constructor
  · rw [stripFences_wrapJ s]; exact h
  · rw [stripFences_wrapB s hs]; exact h

/-- C4 witness: the concrete valid JSON text `"{}"`, wrapped either way,
decodes to the same value as unwrapped. -/
theorem fence_roundtrip_witness :
    jloads "{}".data = some (Json.jobj []) ∧
    jloads (stripFences (fenceJ ++ "{}".data ++ fenceB)) = some (Json.jobj []) ∧
    jloads (stripFences (fenceB ++ "{}".data ++ fenceB)) = some (Json.jobj []) :=
  ⟨rfl, (fence_roundtrip "{}".data (Json.jobj []) rfl).1,
    (fence_roundtrip "{}".data (Json.jobj []) rfl).2⟩

/-- C2: whenever the fence-stripped response is not decodable as JSON,
`extract_entities_and_relationships` returns the empty Extraction Result
(the decode error is caught, so no exception escapes: the embedding is a
total function). -/
theorem extract_malformed_empty (response : Str)
    (h : jloads (stripFences response) = none) :
    extract_entities_and_relationships response = emptyExtraction := by
  unfold extract_entities_and_relationships
  rw [h]

/-- C2 witness: the concrete model output `"not json"` yields the empty
Extraction Result. -/
theorem extract_malformed_empty_witness :
    jloads (stripFences "not json".data) = none ∧
    extract_entities_and_relationships "not json".data = emptyExtraction :=
  ⟨rfl, extract_malformed_empty "not json".data rfl⟩

/-- C9: on a successful decode, `extract_entities_and_relationships`
returns the decoded value unchanged, with no validation of its shape. -/
theorem extract_success_passthrough (response : Str) (v : Json)
    (h : jloads (stripFences response) = some v) :
    extract_entities_and_relationships response = v := by
  unfold extract_entities_and_relationships
  rw [h]

/-- C9 witness: the bare number `42` — not an object with entity and
relationship lists — is returned as-is. -/
theorem extract_success_passthrough_witness :
    jloads (stripFences "42".data) = some (Json.jnum "42".data) ∧
    extract_entities_and_relationships "42".data = Json.jnum "42".data :=
  ⟨rfl, extract_success_passthrough "42".data (Json.jnum "42".data) rfl⟩

/-- Assoc-list lookup used to model Python `dict.get`. -/
def alook (k : Str) : List (Str × Str) → Option Str
  | [] => none
  | (k0, v) :: rest => if k0 == k then some v else alook k rest

/-- An HTTP response from the completion endpoint as seen by the client:
a status code and the JSON body's string fields (the `/api/generate`
body's `"response"` field is a string). -/
structure GenResponse where
  status : Nat
  fields : List (Str × Str)

/-- An HTTP response from the embeddings endpoint: a status code and the
body's `"embedding"` list field.  Numeric embedding values are modelled
as integers; no claim depends on float arithmetic. -/
structure EmbResponse where
  status : Nat
  fields : List (Str × List Int)

/-- One attempt against the backend either raises (timeout, transport
failure — the `except Exception` path) or produces an HTTP response. -/
abbrev GenAttempt := Except Str GenResponse

/-- Embedding of `OllamaClient.generate_completion`: any raised exception
is caught and yields `""`; a non-200 status yields `""`; a 200 response
yields `result.get("response", "")`. -/
def generate_completion (attempt : GenAttempt) : Str :=
  match attempt with
  | .error _ => []
  | .ok r => if r.status = 200 then (alook "response".data r.fields).getD [] else []

/-- Assoc-list lookup for the embeddings body. -/
def alookE (k : Str) : List (Str × List Int) → Option (List Int)
  | [] => none
  | (k0, v) :: rest => if k0 == k then some v else alookE k rest

/-- Embedding of `OllamaClient.generate_embeddings`: any raised exception
is caught and yields `[]`; a non-200 status yields `[]`; a 200 response
yields `result.get("embedding", [])`. -/
def generate_embeddings (attempt : Except Str EmbResponse) : List Int :=
  match attempt with
  | .error _ => []
  | .ok r => if r.status = 200 then (alookE "embedding".data r.fields).getD [] else []

/-- C10: the model-backend client is total at its interface — on a raised
exception, a non-200 status, or a 200 response lacking the expected key,
`generate_completion` returns the empty string and `generate_embeddings`
the empty list.  Both embeddings are total Lean functions, so no
exception propagates to the caller. -/
theorem client_total (msg : Str) (r : GenResponse) (msge : Str) (er : EmbResponse) :
    generate_completion (.error msg) = [] ∧
    (r.status ≠ 200 → generate_completion (.ok r) = []) ∧
    (alook "response".data r.fields = none → generate_completion (.ok r) = []) ∧
    generate_embeddings (.error msge) = [] ∧
    (er.status ≠ 200 → generate_embeddings (.ok er) = []) ∧
    (alookE "embedding".data er.fields = none → generate_embeddings (.ok er) = []) := by
  refine ⟨rfl, ?_, ?_, rfl, ?_, ?_⟩
  · intro h; simp [generate_completion, h]
  · intro h; simp [generate_completion, h]
  · intro h; simp [generate_embeddings, h]
  · intro h; simp [generate_embeddings, h]

/-- C10 witness: a 500-status response and an empty-body 200 response both
degrade to the empty output, for both endpoints. -/
theorem client_total_witness :
    generate_completion (.error "timeout".data) = [] ∧
    generate_completion (.ok ⟨500, [("response".data, "hi".data)]⟩) = [] ∧
    generate_completion (.ok ⟨200, []⟩) = [] ∧
    generate_embeddings (.error "timeout".data) = [] ∧
    generate_embeddings (.ok ⟨500, []⟩) = [] ∧
    generate_embeddings (.ok ⟨200, []⟩) = [] := by
  have h := client_total "timeout".data ⟨500, [("response".data, "hi".data)]⟩
    "timeout".data ⟨500, []⟩
  have h2 := client_total "timeout".data ⟨200, []⟩ "timeout".data ⟨200, []⟩
  exact ⟨h.1, h.2.1 (by decide), h2.2.2.1 rfl, h.2.2.2.1,
    h.2.2.2.2.1 (by decide), h2.2.2.2.2.2 rfl⟩

/-- The extraction path of `extract_entities_and_relationships` as it
depends on the backend: the source makes exactly one
`generate_completion` call (there is no retry loop), then parses the
response.  `oracle n` is the outcome the backend would give to the n-th
call; the second component counts the calls made. -/
def extraction_pipeline (oracle : Nat → GenAttempt) : Json × Nat :=
  (extract_entities_and_relationships (generate_completion (oracle 0)), 1)

/-- Modelled from the spec: the retry policy §4.1 claims for the
Extraction Orchestrator — retry the completion call up to a fixed attempt
count on failure, and emit the empty result only after exhausting all
attempts.  (Backoff delays are real-time behaviour and play no role in
which attempt's response is used.)  This definition exists only to be
compared against `extraction_pipeline`; the source has no retry loop. -/
def spec_retry_completion : Nat → Nat → (Nat → GenAttempt) → Str
  | 0, _, _ => []
  | n + 1, i, oracle =>
    match oracle i with
    | .error _ => spec_retry_completion n (i + 1) oracle
    | .ok r =>
      if r.status = 200 then (alook "response".data r.fields).getD []
      else spec_retry_completion n (i + 1) oracle

/-- An oracle whose first attempt times out and whose second attempt
succeeds with the valid JSON text `"[]"`. -/
def failThenOk : Nat → GenAttempt := fun n =>
  if n = 0 then .error "timeout".data
  else .ok ⟨200, [("response".data, "[]".data)]⟩

/-- C3 counterexample: with a backend that fails once and then succeeds,
the code emits the empty Extraction Result after a single call — it does
not retry — whereas the spec's retry policy (any attempt budget of at
least two) recovers the successful response and decodes it to `[]`.
This falsifies "retries up to a fixed attempt count … only after
exhausting all attempts does it emit an empty Extraction Result". -/
theorem no_retry_counterexample :
    extraction_pipeline failThenOk = (emptyExtraction, 1) ∧
    extract_entities_and_relationships (spec_retry_completion 2 0 failThenOk)
      = Json.jarr [] := by
  constructor
  · rfl
  · rfl

/-- C3 amended: on a failed (or empty-output) completion attempt the
extraction path performs no retries — it makes exactly one backend call
and immediately emits the empty Extraction Result. -/
theorem no_retry_amended (oracle : Nat → GenAttempt)
    (h : generate_completion (oracle 0) = []) :
    (extraction_pipeline oracle).2 = 1 ∧
    (extraction_pipeline oracle).1 = emptyExtraction := by
  refine ⟨rfl, ?_⟩
  show extract_entities_and_relationships (generate_completion (oracle 0)) = emptyExtraction
  rw [h]
  rfl

/-- C3 amended witness: the fail-then-succeed oracle makes the hypothesis
concrete. -/
theorem no_retry_amended_witness :
    generate_completion (failThenOk 0) = [] ∧
    (extraction_pipeline failThenOk).2 = 1 ∧
    (extraction_pipeline failThenOk).1 = emptyExtraction :=
  ⟨rfl, (no_retry_amended failThenOk rfl).1, (no_retry_amended failThenOk rfl).2⟩

/-- Outcome of running a block of Python code: it returns a value or
raises an exception. -/
inductive PyOutcome (α : Type) where
  | ok (val : α)
  | exn (msg : Str)

/-- Embedding of `SmartHomeGraphitiEngine.process_sensor_data`: the whole
body runs inside `try`, and `except Exception` logs and returns. -/
def process_sensor_data (body : PyOutcome Unit) : PyOutcome Unit :=
  match body with
  | .ok _ => .ok ()
  | .exn _ => .ok ()

/-- Embedding of `SmartHomeGraphitiEngine.generate_insights`: the body
runs inside `try`, and `except Exception` logs and returns `{}`. -/
def generate_insights (body : PyOutcome (List (Str × Str))) : PyOutcome (List (Str × Str)) :=
  match body with
  | .ok d => .ok d
  | .exn _ => .ok []

/-- Embedding of `SmartHomeGraphitiEngine.run_processing_cycle`: process
one event, generate insights, run the rest of the cycle body (`b3`, the
logging), all inside a `try` whose `except Exception` logs and returns. -/
def run_processing_cycle (b1 : PyOutcome Unit) (b2 : PyOutcome (List (Str × Str)))
    (b3 : PyOutcome Unit) : PyOutcome Unit :=
  match process_sensor_data b1 with
  | .exn _ => .ok ()
  | .ok _ =>
    match generate_insights b2 with
    | .exn _ => .ok ()
    | .ok _ =>
      match b3 with
      | .exn _ => .ok ()
      | .ok _ => .ok ()

/-- What one iteration of the main loop in `SmartHomeGraphitiEngine.run`
does next. -/
inductive LoopOutcome where
  | continueLoop
  | fatalExit

/-- Embedding of one iteration of the `while True` loop in `run`: run the
cycle, then sleep; an exception escaping to the loop's
`except Exception` handler calls `sys.exit(1)`. -/
def loop_step (b1 : PyOutcome Unit) (b2 : PyOutcome (List (Str × Str)))
    (b3 : PyOutcome Unit) (sleepB : PyOutcome Unit) : LoopOutcome :=
  match run_processing_cycle b1 b2 b3 with
  | .exn _ => .fatalExit
  | .ok _ =>
    match sleepB with
    | .exn _ => .fatalExit
    | .ok _ => .continueLoop

/-- The environment variables `check_environment` requires. -/
def requiredVars : List Str :=
  ["NEO4J_URI".data, "NEO4J_USERNAME".data, "NEO4J_PASSWORD".data,
   "KAFKA_BOOTSTRAP_SERVERS".data, "OLLAMA_BASE_URL".data]

/-- Embedding of `SmartHomeGraphitiEngine.check_environment`: collect the
required variables that are unset or empty (Python falsiness of
`os.getenv`), and succeed only when none are missing. -/
def check_environment (getenv : Str → Option Str) : Bool :=
  (requiredVars.filter (fun v => ((getenv v).getD []).isEmpty)).isEmpty

/-- What `run` does at startup. -/
inductive StartOutcome where
  | fatalExit
  | started

/-- Embedding of the startup portion of `SmartHomeGraphitiEngine.run`: a
failed environment check is the fatal `sys.exit(1)` path. -/
def run_start (getenv : Str → Option Str) : StartOutcome :=
  if check_environment getenv then .started else .fatalExit

/-- C6: per-cycle failure isolation — whatever the outcomes of processing
an event, generating insights, and the rest of the cycle body, the cycle
returns normally; with those failures contained, the loop iteration
continues rather than exiting; and the fatal startup path is taken on a
failed configuration check. -/
theorem cycle_isolation (getenv : Str → Option Str) (b1 : PyOutcome Unit)
    (b2 : PyOutcome (List (Str × Str))) (b3 : PyOutcome Unit) :
    run_processing_cycle b1 b2 b3 = .ok () ∧
    loop_step b1 b2 b3 (.ok ()) = .continueLoop ∧
    (check_environment getenv = false → run_start getenv = .fatalExit) := by
  refine ⟨?_, ?_, ?_⟩
  · cases b1 <;> cases b2 <;> cases b3 <;> rfl
  · cases b1 <;> cases b2 <;> cases b3 <;> rfl
  · intro h; simp [run_start, h]

/-- C6 witness: with every cycle sub-step raising, the cycle still returns
normally and the loop continues; with an empty environment, startup is
fatal. -/
theorem cycle_isolation_witness :
    run_processing_cycle (.exn "ex1".data) (.exn "ex2".data) (.exn "ex3".data) = .ok () ∧
    loop_step (.exn "ex1".data) (.exn "ex2".data) (.exn "ex3".data) (.ok ()) = .continueLoop ∧
    (check_environment (fun _ => none) = false ∧
      run_start (fun _ => none) = .fatalExit) :=
  ⟨(cycle_isolation (fun _ => none) (.exn "ex1".data) (.exn "ex2".data) (.exn "ex3".data)).1,
   (cycle_isolation (fun _ => none) (.exn "ex1".data) (.exn "ex2".data) (.exn "ex3".data)).2.1,
   rfl,
   (cycle_isolation (fun _ => none) (.exn "ex1".data) (.exn "ex2".data) (.exn "ex3".data)).2.2 rfl⟩

/-- Collapse runs of spaces to a single space (helper for name
normalization; whitespace has already been mapped to plain spaces). -/
def dedupSpace : Str → Str
  | [] => []
  | c :: rest =>
    match rest with
    | [] => [c]
    | c2 :: _ =>
      if c == ' ' && c2 == ' ' then dedupSpace rest else c :: dedupSpace rest

/-- Modelled from the spec: the Entity Resolver's name normalization
(§4.3, "normalize the name (trim, casefold, collapse whitespace) to
produce a canonical key"); casefold is ASCII lower-casing here.  The
repository leaves the resolver unimplemented (spec §9). -/
def normalize_name (s : Str) : Str :=
  pystrip (dedupSpace (s.map (fun c => if isPyWs c then ' ' else c.toLower)))

/-- Keys of an assoc list in first-occurrence order, without duplicates. -/
def keysFirst : List (Str × Str) → List Str
  | [] => []
  | (k, _) :: rest => k :: (keysFirst rest).filter (fun k2 => k2 != k)

/-- Last value bound to `k` (last-write-wins within one update batch). -/
def lastVal (q : List (Str × Str)) (k : Str) : Str :=
  (alook k q.reverse).getD []

/-- Canonical form of an update batch: each key once, at its first
occurrence, carrying its last-written value. -/
def dlast (q : List (Str × Str)) : List (Str × Str) :=
  (keysFirst q).map (fun k => (k, lastVal q k))

/-- Overwrite one binding from the canonicalized batch, if present. -/
def updKV (qd : List (Str × Str)) (kv : Str × Str) : Str × Str :=
  (kv.1, (alook kv.1 qd).getD kv.2)

/-- Modelled from the spec: the scalar last-write-wins property merge of
§4.3/§4.4 (the source's prompt schema makes property values scalar
strings).  Existing keys are overwritten in place; new keys are appended
in first-occurrence order. -/
def mergeProps (p q : List (Str × Str)) : List (Str × Str) :=
  p.map (updKV (dlast q)) ++
    (dlast q).filter (fun kv => !(p.any (fun kv0 => kv0.1 == kv.1)))

theorem mapSelf {α : Type} (l : List α) (f : α → α) (h : ∀ x ∈ l, f x = x) :
    l.map f = l := by
  induction l with
  | nil => rfl
  | cons a t ih =>
    simp only [List.map_cons]
    rw [h a (by simp), ih (fun x hx => h x (by simp [hx]))]

theorem alook_map_self (ks : List Str) (g : Str → Str) (k : Str) (h : k ∈ ks) :
    alook k (ks.map (fun k2 => (k2, g k2))) = some (g k) := by
  induction ks with
  | nil => cases h
  | cons k0 rest ih =>
    simp only [List.map_cons, alook]
    by_cases hk : k0 = k
    · subst hk; simp
    · have : (k0 == k) = false := beq_eq_false_iff_ne.mpr hk
      rw [this]
      simp only [Bool.false_eq_true, if_false]
      exact ih (by
        rcases List.mem_cons.mp h with h1 | h1
        · exact absurd h1.symm hk
        · exact h1)

theorem dlast_self_lookup (q : List (Str × Str)) (kv : Str × Str)
    (h : kv ∈ dlast q) : alook kv.1 (dlast q) = some kv.2 := by
  unfold dlast at h ⊢
  rcases List.mem_map.mp h with ⟨k, hk, hkv⟩
  subst hkv
  exact alook_map_self _ _ _ hk

theorem updKV_idem (qd : List (Str × Str)) (kv : Str × Str) :
    updKV qd (updKV qd kv) = updKV qd kv := by
  cases h : alook kv.1 qd <;> simp [updKV, h]

theorem updKV_fst (qd : List (Str × Str)) (kv : Str × Str) :
    (updKV qd kv).1 = kv.1 := rfl

/-- Applying the same update batch twice is the same as applying it
once (the central absorption fact behind merge idempotency). -/
theorem mergeProps_absorb (p q : List (Str × Str)) :
    mergeProps (mergeProps p q) q = mergeProps p q := by
  have hfix : ∀ kv ∈ mergeProps p q, updKV (dlast q) kv = kv := by
    intro kv hkv
    rcases List.mem_append.mp hkv with hm | hf
    · rcases List.mem_map.mp hm with ⟨kv0, _, hkv0⟩
      subst hkv0
      exact updKV_idem _ _
    · have hq : kv ∈ dlast q := List.mem_filter.mp hf |>.1
      have := dlast_self_lookup q kv hq
      simp [updKV, this]
  have hany : ∀ kv ∈ dlast q,
      (mergeProps p q).any (fun kv0 => kv0.1 == kv.1) = true := by
    intro kv hkv
    by_cases hp : p.any (fun kv0 => kv0.1 == kv.1) = true
    · rcases List.any_eq_true.mp hp with ⟨kv0, hkv0, hbeq⟩
      refine List.any_eq_true.mpr ⟨updKV (dlast q) kv0, ?_, hbeq⟩
      exact List.mem_append.mpr (Or.inl (List.mem_map.mpr ⟨kv0, hkv0, rfl⟩))
    · have hfb : (p.any (fun kv0 => kv0.1 == kv.1)) = false :=
        Bool.eq_false_iff.mpr hp
      refine List.any_eq_true.mpr ⟨kv, ?_, by simp⟩
      exact List.mem_append.mpr (Or.inr (List.mem_filter.mpr ⟨hkv, by simp [hfb]⟩))
  show (mergeProps p q).map (updKV (dlast q)) ++
      (dlast q).filter (fun kv => !((mergeProps p q).any (fun kv0 => kv0.1 == kv.1)))
    = mergeProps p q
  rw [mapSelf _ _ hfix]
  have : (dlast q).filter
      (fun kv => !((mergeProps p q).any (fun kv0 => kv0.1 == kv.1))) = [] := by
    refine List.filter_eq_nil.mpr ?_
    intro kv hkv
    simp [hany kv hkv]
  rw [this, List.append_nil]

/-- An Entity Node of the knowledge graph: the canonical key doubles as
the stable id (it is derived deterministically from the raw name). -/
structure EntityNode where
  key : Str
  ntype : Str
  props : List (Str × Str)
  firstSeen : Nat
  lastSeen : Nat

/-- A raw entity of an Extraction Result (`name`/`type`/`properties`). -/
structure RawEntity where
  name : Str
  etype : Str
  eprops : List (Str × Str)

/-- A raw relationship of an Extraction Result
(`source`/`target`/`type`/`properties`). -/
structure RawRel where
  source : Str
  target : Str
  rtype : Str
  rprops : List (Str × Str)

/-- An Extraction Result: raw entities, raw relationships and the source
event's timestamp. -/
structure ExtractionResult where
  entities : List RawEntity
  rels : List RawRel
  eventTs : Nat

/-- A Relationship Edge: typed, time-bounded association between two
Entity Nodes (`validTo = none` means still active). -/
structure RelEdge where
  src : Str
  tgt : Str
  rtype : Str
  props : List (Str × Str)
  validFrom : Nat
  validTo : Option Nat
  lastTouched : Nat

/-- Canonical key of a raw entity, as resolved by the Entity Resolver. -/
def entKey (e : RawEntity) : Str := normalize_name e.name

/-- The entities of a result that resolve to the node key `k`. -/
def entsFor (es : List RawEntity) (k : Str) : List RawEntity :=
  es.filter (fun e => entKey e == k)

/-- First-occurrence deduplication of a key list. -/
def dedupFirstS : List Str → List Str
  | [] => []
  | k :: rest => k :: (dedupFirstS rest).filter (fun k2 => k2 != k)

/-- Modelled from the spec: update one Entity Node with every entity of
the result that resolved to it (§4.3/§4.4) — last-write-wins scalar
properties, type from the last write, `first_seen` kept, `last_seen`
moved to the event timestamp when the node was touched. -/
def combineNode (ts : Nat) (n : EntityNode) (esk : List RawEntity) : EntityNode :=
  { key := n.key
    ntype := ((esk.map (fun e => e.etype)).getLast?).getD n.ntype
    props := mergeProps n.props ((esk.map (fun e => e.eprops)).join)
    firstSeen := n.firstSeen
    lastSeen := if esk.isEmpty then n.lastSeen else ts }

/-- Keys of the result's entities that match no existing node and will
therefore create fresh nodes (exact canonical-key resolution). -/
def newEntityKeys (es : List RawEntity) (nodes : List EntityNode) : List Str :=
  dedupFirstS ((es.map entKey).filter (fun k => !(nodes.any (fun n => n.key == k))))

/-- A fresh node before any entity of the result is folded into it. -/
def blankNode (k : Str) (ts : Nat) : EntityNode :=
  { key := k, ntype := [], props := [], firstSeen := ts, lastSeen := ts }

/-- Modelled from the spec: the Merge Engine's entity upsert (§4.4,
create-or-update by resolved id).  Existing nodes absorb their matching
entities in place; unmatched canonical keys create nodes in
first-occurrence order.  The similarity fallback of §4.3 needs the
external embedding backend and is outside this model (§9 notes the whole
resolver is unimplemented in the source). -/
def mergeEntities (ts : Nat) (nodes : List EntityNode) (es : List RawEntity) :
    List EntityNode :=
  nodes.map (fun n => combineNode ts n (entsFor es n.key)) ++
    (newEntityKeys es nodes).map (fun k => combineNode ts (blankNode k ts) (entsFor es k))

theorem combineNode_key (ts : Nat) (n : EntityNode) (esk : List RawEntity) :
    (combineNode ts n esk).key = n.key := rfl

theorem combineNode_absorb (ts : Nat) (n : EntityNode) (esk : List RawEntity) :
    combineNode ts (combineNode ts n esk) esk = combineNode ts n esk := by
  unfold combineNode
  cases hk : (esk.map (fun e => e.etype)).getLast? <;>
    cases he : esk.isEmpty <;>
      simp [mergeProps_absorb, hk, he]

theorem mem_dedupFirstS (l : List Str) (x : Str) (h : x ∈ l) : x ∈ dedupFirstS l := by
  induction l with
  | nil => cases h
  | cons k rest ih =>
    rcases List.mem_cons.mp h with h1 | h1
    · subst h1; exact List.mem_cons_self _ _
    · by_cases hx : x = k
      · subst hx; exact List.mem_cons_self _ _
      · refine List.mem_cons.mpr (Or.inr ?_)
        exact List.mem_filter.mpr ⟨ih h1, by simp [bne, hx]⟩

theorem mergeEntities_key_covered (ts : Nat) (nodes : List EntityNode)
    (es : List RawEntity) (k : Str) (h : k ∈ es.map entKey) :
    (mergeEntities ts nodes es).any (fun n => n.key == k) = true := by
  by_cases hn : nodes.any (fun n => n.key == k) = true
  · rcases List.any_eq_true.mp hn with ⟨n, hmem, hbeq⟩
    refine List.any_eq_true.mpr ⟨combineNode ts n (entsFor es n.key), ?_, ?_⟩
    · exact List.mem_append.mpr (Or.inl (List.mem_map.mpr ⟨n, hmem, rfl⟩))
    · rw [combineNode_key]; exact hbeq
  · have hfb : nodes.any (fun n => n.key == k) = false := Bool.eq_false_iff.mpr hn
    have hkmem : k ∈ newEntityKeys es nodes := by
      refine mem_dedupFirstS _ _ ?_
      exact List.mem_filter.mpr ⟨h, by simp [hfb]⟩
    refine List.any_eq_true.mpr ⟨combineNode ts (blankNode k ts) (entsFor es k), ?_, ?_⟩
    · exact List.mem_append.mpr (Or.inr (List.mem_map.mpr ⟨k, hkmem, rfl⟩))
    · rw [combineNode_key]; simp [blankNode]

theorem mergeEntities_idem (ts : Nat) (nodes : List EntityNode) (es : List RawEntity) :
    mergeEntities ts (mergeEntities ts nodes es) es = mergeEntities ts nodes es := by
  have hnew : newEntityKeys es (mergeEntities ts nodes es) = [] := by
    unfold newEntityKeys
    have : (es.map entKey).filter
        (fun k => !((mergeEntities ts nodes es).any (fun n => n.key == k))) = [] := by
      refine List.filter_eq_nil.mpr ?_
      intro k hk
      simp [mergeEntities_key_covered ts nodes es k hk]
    rw [this]
    rfl
  have hfix : ∀ n1 ∈ mergeEntities ts nodes es,
      combineNode ts n1 (entsFor es n1.key) = n1 := by
    intro n1 h1
    rcases List.mem_append.mp h1 with hm | hm
    · rcases List.mem_map.mp hm with ⟨n0, _, hn0⟩
      subst hn0
      rw [combineNode_key]
      exact combineNode_absorb ts n0 (entsFor es n0.key)
    · rcases List.mem_map.mp hm with ⟨k, _, hk⟩
      subst hk
      rw [combineNode_key]
      show combineNode ts (combineNode ts (blankNode k ts) (entsFor es k))
          (entsFor es (blankNode k ts).key) = _
      exact combineNode_absorb ts (blankNode k ts) (entsFor es k)
  show (mergeEntities ts nodes es).map (fun n => combineNode ts n (entsFor es n.key)) ++
      (newEntityKeys es (mergeEntities ts nodes es)).map
        (fun k => combineNode ts (blankNode k ts) (entsFor es k))
    = mergeEntities ts nodes es
  rw [hnew, mapSelf _ _ hfix]
  simp

/-- Resolved key of a raw relationship: endpoint names resolved by the
Entity Resolver, plus the relationship type. -/
def relKey (r : RawRel) : Str × Str × Str :=
  (normalize_name r.source, normalize_name r.target, r.rtype)

/-- Key of a stored edge. -/
def edgeKey (ed : RelEdge) : Str × Str × Str := (ed.src, ed.tgt, ed.rtype)

/-- The relationships of a result that resolve to key `t`. -/
def relsFor (rs : List RawRel) (t : Str × Str × Str) : List RawRel :=
  rs.filter (fun r => relKey r == t)

/-- First-occurrence deduplication of a triple list. -/
def dedupFirstT : List (Str × Str × Str) → List (Str × Str × Str)
  | [] => []
  | t :: rest => t :: (dedupFirstT rest).filter (fun t2 => t2 != t)

/-- Modelled from the spec: update one Relationship Edge with every
relationship of the result that resolved to it (§4.4) — properties use
the same last-write-wins merge, `valid_from`/`valid_to` are untouched by
an upsert, and last-touched tracking moves to the event timestamp. -/
def combineEdge (ts : Nat) (ed : RelEdge) (rsk : List RawRel) : RelEdge :=
  { src := ed.src
    tgt := ed.tgt
    rtype := ed.rtype
    props := mergeProps ed.props ((rsk.map (fun r => r.rprops)).join)
    validFrom := ed.validFrom
    validTo := ed.validTo
    lastTouched := if rsk.isEmpty then ed.lastTouched else ts }

/-- An existing edge is upserted by the result when it is active and some
relationship of the result carries its key. -/
def isActiveFor (rs : List RawRel) (ed : RelEdge) : Bool :=
  ed.validTo.isNone && rs.any (fun r => relKey r == edgeKey ed)

/-- Keys of the result's relationships that match no active edge and will
therefore create fresh active edges. -/
def newRelKeys (rs : List RawRel) (edges : List RelEdge) : List (Str × Str × Str) :=
  dedupFirstT ((rs.map relKey).filter
    (fun t => !(edges.any (fun ed => ed.validTo.isNone && (edgeKey ed == t)))))

/-- A fresh active edge created at the event timestamp. -/
def blankEdge (t : Str × Str × Str) (ts : Nat) : RelEdge :=
  { src := t.1, tgt := t.2.1, rtype := t.2.2, props := [],
    validFrom := ts, validTo := none, lastTouched := ts }

/-- Modelled from the spec: the Merge Engine's relationship upsert (§4.4)
— an active edge with the same (source, target, type) absorbs the
result's matching relationships; otherwise a fresh active edge is created
with `valid_from` at the event timestamp.  Edges are never deleted; the
conflict-triggered closing of §4.4 needs the (unimplemented, §9)
conflict-signal detection and is outside this model. -/
def mergeEdges (ts : Nat) (edges : List RelEdge) (rs : List RawRel) : List RelEdge :=
  edges.map (fun ed =>
      if isActiveFor rs ed then combineEdge ts ed (relsFor rs (edgeKey ed)) else ed) ++
    (newRelKeys rs edges).map (fun t => combineEdge ts (blankEdge t ts) (relsFor rs t))

theorem combineEdge_edgeKey (ts : Nat) (ed : RelEdge) (rsk : List RawRel) :
    edgeKey (combineEdge ts ed rsk) = edgeKey ed := rfl

theorem combineEdge_validTo (ts : Nat) (ed : RelEdge) (rsk : List RawRel) :
    (combineEdge ts ed rsk).validTo = ed.validTo := rfl

theorem combineEdge_absorb (ts : Nat) (ed : RelEdge) (rsk : List RawRel) :
    combineEdge ts (combineEdge ts ed rsk) rsk = combineEdge ts ed rsk := by
  unfold combineEdge
  cases he : rsk.isEmpty <;> simp [mergeProps_absorb, he]

theorem isActiveFor_combineEdge (ts : Nat) (rs : List RawRel) (ed : RelEdge)
    (rsk : List RawRel) : isActiveFor rs (combineEdge ts ed rsk) = isActiveFor rs ed := rfl

theorem blankEdge_edgeKey (t : Str × Str × Str) (ts : Nat) :
    edgeKey (blankEdge t ts) = t := rfl

theorem mem_dedupFirstT (l : List (Str × Str × Str)) (x : Str × Str × Str)
    (h : x ∈ l) : x ∈ dedupFirstT l := by
  induction l with
  | nil => cases h
  | cons k rest ih =>
    rcases List.mem_cons.mp h with h1 | h1
    · subst h1; exact List.mem_cons_self _ _
    · by_cases hx : x = k
      · subst hx; exact List.mem_cons_self _ _
      · refine List.mem_cons.mpr (Or.inr ?_)
        exact List.mem_filter.mpr ⟨ih h1, by simp [bne, hx]⟩

theorem dedupFirstT_subset (l : List (Str × Str × Str)) (x : Str × Str × Str)
    (h : x ∈ dedupFirstT l) : x ∈ l := by
  induction l with
  | nil => cases h
  | cons k rest ih =>
    rcases List.mem_cons.mp h with h1 | h1
    · subst h1; exact List.mem_cons_self _ _
    · exact List.mem_cons.mpr (Or.inr (ih (List.mem_filter.mp h1).1))

theorem mergeEdges_key_covered (ts : Nat) (edges : List RelEdge) (rs : List RawRel)
    (t : Str × Str × Str) (h : t ∈ rs.map relKey) :
    (mergeEdges ts edges rs).any
      (fun ed => ed.validTo.isNone && (edgeKey ed == t)) = true := by
  by_cases hn : edges.any (fun ed => ed.validTo.isNone && (edgeKey ed == t)) = true
  · rcases List.any_eq_true.mp hn with ⟨ed, hmem, hbeq⟩
    have hand := hbeq
    rw [Bool.and_eq_true] at hand
    have hnone : ed.validTo.isNone = true := hand.1
    have hkey : (edgeKey ed == t) = true := hand.2
    have hact : isActiveFor rs ed = true := by
      unfold isActiveFor
      rw [Bool.and_eq_true]
      refine ⟨hnone, ?_⟩
      rcases List.mem_map.mp h with ⟨r, hr, hrt⟩
      refine List.any_eq_true.mpr ⟨r, hr, ?_⟩
      have : edgeKey ed = t := eq_of_beq hkey
      rw [hrt, this]
      exact beq_self_eq_true t
    refine List.any_eq_true.mpr ⟨combineEdge ts ed (relsFor rs (edgeKey ed)), ?_, ?_⟩
    · refine List.mem_append.mpr (Or.inl (List.mem_map.mpr ⟨ed, hmem, ?_⟩))
      rw [hact]
      simp
    · rw [combineEdge_edgeKey, combineEdge_validTo]
      exact hbeq
  · have hfb : edges.any (fun ed => ed.validTo.isNone && (edgeKey ed == t)) = false :=
      Bool.eq_false_iff.mpr hn
    have htmem : t ∈ newRelKeys rs edges := by
      refine mem_dedupFirstT _ _ ?_
      exact List.mem_filter.mpr ⟨h, by simp [hfb]⟩
    refine List.any_eq_true.mpr ⟨combineEdge ts (blankEdge t ts) (relsFor rs t), ?_, ?_⟩
    · exact List.mem_append.mpr (Or.inr (List.mem_map.mpr ⟨t, htmem, rfl⟩))
    · rw [combineEdge_edgeKey, combineEdge_validTo, blankEdge_edgeKey]
      simp [blankEdge]

theorem mergeEdges_idem (ts : Nat) (edges : List RelEdge) (rs : List RawRel) :
    mergeEdges ts (mergeEdges ts edges rs) rs = mergeEdges ts edges rs := by
  have hnew : newRelKeys rs (mergeEdges ts edges rs) = [] := by
    unfold newRelKeys
    have : (rs.map relKey).filter
        (fun t => !((mergeEdges ts edges rs).any
          (fun ed => ed.validTo.isNone && (edgeKey ed == t)))) = [] := by
      refine List.filter_eq_nil.mpr ?_
      intro t ht
      simp [mergeEdges_key_covered ts edges rs t ht]
    rw [this]
    rfl
  have hfix : ∀ ed1 ∈ mergeEdges ts edges rs,
      (if isActiveFor rs ed1 then combineEdge ts ed1 (relsFor rs (edgeKey ed1)) else ed1)
        = ed1 := by
    intro ed1 h1
    rcases List.mem_append.mp h1 with hm | hm
    · rcases List.mem_map.mp hm with ⟨ed0, _, hed0⟩
      subst hed0
      by_cases hact : isActiveFor rs ed0 = true
      · rw [hact]
        simp only [if_true]
        rw [isActiveFor_combineEdge, hact]
        simp only [if_true]
        rw [combineEdge_edgeKey]
        exact combineEdge_absorb ts ed0 (relsFor rs (edgeKey ed0))
      · have hfb : isActiveFor rs ed0 = false := Bool.eq_false_iff.mpr hact
        rw [hfb]
        simp only [Bool.false_eq_true, if_false]
        rw [hfb]
        simp
    · rcases List.mem_map.mp hm with ⟨t, htmem, hed⟩
      subst hed
      have hact : isActiveFor rs (combineEdge ts (blankEdge t ts) (relsFor rs t)) = true := by
        rw [isActiveFor_combineEdge]
        unfold isActiveFor
        rw [Bool.and_eq_true]
        refine ⟨by simp [blankEdge], ?_⟩
        have ht : t ∈ rs.map relKey :=
          (List.mem_filter.mp (dedupFirstT_subset _ _ htmem)).1
        rcases List.mem_map.mp ht with ⟨r, hr, hrt⟩
        refine List.any_eq_true.mpr ⟨r, hr, ?_⟩
        rw [hrt, blankEdge_edgeKey]
        exact beq_self_eq_true t
      rw [hact]
      simp only [if_true]
      rw [combineEdge_edgeKey, blankEdge_edgeKey]
      exact combineEdge_absorb ts (blankEdge t ts) (relsFor rs t)
  show (mergeEdges ts edges rs).map (fun ed =>
      if isActiveFor rs ed then combineEdge ts ed (relsFor rs (edgeKey ed)) else ed) ++
      (newRelKeys rs (mergeEdges ts edges rs)).map
        (fun t => combineEdge ts (blankEdge t ts) (relsFor rs t))
    = mergeEdges ts edges rs
  rw [hnew, mapSelf _ _ hfix]
  simp

/-- The graph state owned by the Merge Engine. -/
structure GraphState where
  nodes : List EntityNode
  edges : List RelEdge

/-- Modelled from the spec: the Merge Engine applying one Extraction
Result to the graph as a single logical transaction (§4.4): entity
upserts then relationship upserts, both keyed by resolved ids. -/
def merge_result (g : GraphState) (r : ExtractionResult) : GraphState :=
  { nodes := mergeEntities r.eventTs g.nodes r.entities
    edges := mergeEdges r.eventTs g.edges r.rels }

/-- C1: merging is idempotent — applying the same Extraction Result to
the Merge Engine a second time leaves the graph state unchanged, so the
second application creates no duplicate Entity Nodes or Relationship
Edges. -/
theorem merge_idempotent (g : GraphState) (r : ExtractionResult) :
    merge_result (merge_result g r) r = merge_result g r := by
  unfold merge_result
  simp [mergeEntities_idem, mergeEdges_idem]

/-- C8: the raw entity names resolve to the same canonical key, and
merging an extraction carrying the second name into a graph that already
holds the node created from the first name updates that node in place —
the graph still holds exactly one node, under the collapsed key. -/
theorem dedup_same_node :
    normalize_name "Living Room Sensor".data = normalize_name "living room sensor ".data ∧
    (merge_result
        (merge_result { nodes := [], edges := [] }
          { entities := [{ name := "Living Room Sensor".data, etype := "device".data,
                           eprops := [] }],
            rels := [], eventTs := 1 })
        { entities := [{ name := "living room sensor ".data, etype := "device".data,
                         eprops := [] }],
          rels := [], eventTs := 2 }).nodes.map (fun n => n.key)
      = ["living room sensor".data] := by
  constructor
  · rfl
  · rfl

/-- C5: `analyze_patterns` returns at most 10 insights, and every returned
insight is a stripped line of the response that is non-empty and does not
start with the character in question. -/
theorem analyze_patterns_cap (response : Str) :
    (analyze_patterns response).length ≤ 10 ∧
    ∀ l, l ∈ analyze_patterns response →
      l ∈ (splitNl response).map pystrip ∧ l ≠ [] ∧ strHasPre ['#'] l = false := by
  constructor
  · exact List.length_take_le 10 _
  · intro l hl
    have hmem := List.take_subset 10 _ hl
    have hfil := List.mem_filter.mp hmem
    have hpred := hfil.2
    simp only [Bool.and_eq_true, Bool.not_eq_true'] at hpred
    refine ⟨hfil.1, ?_, hpred.2⟩
    intro hnil
    subst hnil
    simp [List.isEmpty] at hpred

/-- C5 witness: a response with 15 candidate insight lines yields at most
10 insights, and a concrete returned line satisfies all the properties. -/
theorem analyze_patterns_cap_witness :
    (analyze_patterns
      "a1\na2\na3\na4\na5\na6\na7\na8\na9\na10\na11\na12\na13\na14\na15".data).length ≤ 10 ∧
    ("a1".data ∈ (splitNl
      "a1\na2\na3\na4\na5\na6\na7\na8\na9\na10\na11\na12\na13\na14\na15".data).map pystrip ∧
      "a1".data ≠ [] ∧ strHasPre ['#'] "a1".data = false) :=
  ⟨(analyze_patterns_cap _).1,
   (analyze_patterns_cap _).2 "a1".data (by decide)⟩
